import Mathlib

/-!
# Verification of the Alpha Vantage ingestion pipeline

Shallow embedding of the repository's Python code:

* `python/ingested_multiple_symbols.py`
  (`resolve_alpha_vantage_symbol`, `aggregate_intraday_to_daily`,
  the daily-mode store loop of `ingest_alpha_vantage`), and
* `python/providers/alpha_vantage.py` (`AlphaVantageProvider.fetch_daily`), with
* `python/providers/types.py` (`CandleDaily`, `CandleIntraday`).

Modelling conventions:

* Python `str` values are modelled as Lean `String` (`structure String where
  data : List Char`); Python's lexicographic code-point comparison of strings
  is the lexicographic order on `List Char` (`List.Lex (· < ·)`, the `<` of
  `LinearOrder (List Char)`), and slicing `s[0:10]` is `List.take 10` on the
  character list.
* `str.upper` / `str.strip` are modelled character-wise over ASCII:
  `Char.toUpper` maps `a`–`z` to `A`–`Z` and fixes everything else, and
  stripping removes the ASCII whitespace characters.  All strings the program
  manipulates in the claims' scope are ASCII.
* Python floats carried in candles are modelled as exact rationals `ℚ`
  (every IEEE double is a rational, and the code only compares, takes
  `max`/`min` of, and stores them); Python ints are `Int`, and nullable
  values are `Option`.
-/

/-! ## Python string primitives -/

/-- ASCII whitespace recognised by Python's `str.strip()` (restricted to the
ASCII range): space, tab, newline, carriage return, vertical tab, form feed. -/
def isPySpace (c : Char) : Bool :=
  c == ' ' || c == '\t' || c == '\n' || c == '\r' || c == '\x0b' || c == '\x0c'

/-- `s.strip()`: drop leading and trailing whitespace. -/
def pyStrip (s : String) : String :=
  ⟨((s.data.dropWhile isPySpace).reverse.dropWhile isPySpace).reverse⟩

/-- `s.upper()` (ASCII): uppercase every character via `Char.toUpper`. -/
def pyUpper (s : String) : String :=
  ⟨s.data.map Char.toUpper⟩

/-- `p in s` for a single character `p` (Python substring test on one char). -/
def pyContainsChar (s : String) (c : Char) : Bool :=
  s.data.contains c

/-- `s.startswith(p)`. -/
def pyStartsWith (s p : String) : Bool :=
  p.data.isPrefixOf s.data

/-- `s.endswith(p)`. -/
def pyEndsWith (s p : String) : Bool :=
  p.data.isSuffixOf s.data

/-- `p in s`: substring containment. -/
def pyContainsSub (s p : String) : Bool :=
  s.data.tails.any fun t => p.data.isPrefixOf t

/-! ## `resolve_alpha_vantage_symbol` (ingested_multiple_symbols.py, lines 19–43) -/

/-- The static proxy table of `resolve_alpha_vantage_symbol`:
`{"^GSPC": "SPY", "^IXIC": "QQQ", "^TNX": "IEF", "GC=F": "GLD"}`. -/
def proxy_map : List (String × String) :=
  [("^GSPC", "SPY"), ("^IXIC", "QQQ"), ("^TNX", "IEF"), ("GC=F", "GLD")]

/-- `resolve_alpha_vantage_symbol(input_symbol)`, returning
`(api_symbol, note)`:

```python
s = input_symbol.strip()
upper = s.upper()
if "-" in upper and upper.endswith("-USD"):
    return upper, "crypto"
proxy_map = {...}
if upper in proxy_map:
    return proxy_map[upper], f"proxy_for:{upper}"
if upper.startswith("^") or ("=F" in upper):
    return "", "skip_unsupported"
return upper, "equity"
```
-/
def resolve_alpha_vantage_symbol (input_symbol : String) : String × String :=
  let s := pyStrip input_symbol
  let upper := pyUpper s
  if pyContainsChar upper '-' && pyEndsWith upper "-USD" then
    (upper, "crypto")
  else
    match proxy_map.lookup upper with
    | some v => (v, "proxy_for:" ++ upper)
    | none =>
      if pyStartsWith upper "^" || pyContainsSub upper "=F" then
        ("", "skip_unsupported")
      else
        (upper, "equity")

example : resolve_alpha_vantage_symbol "^GSPC" = ("SPY", "proxy_for:^GSPC") := by decide
example : resolve_alpha_vantage_symbol "btc-usd" = ("BTC-USD", "crypto") := by decide
example : resolve_alpha_vantage_symbol " aapl " = ("AAPL", "equity") := by decide
example : resolve_alpha_vantage_symbol "^A-USD" = ("^A-USD", "crypto") := by decide
example : resolve_alpha_vantage_symbol "ES=F" = ("", "skip_unsupported") := by decide
example : resolve_alpha_vantage_symbol "" = ("", "equity") := by decide

/-! ## Character and string normalisation lemmas -/

theorem toNat_ofNat_valid (m : Nat) (h : Nat.isValidChar m) :
    (Char.ofNat m).toNat = m := by
  simp [Char.ofNat, h, Char.ofNatAux, Char.toNat, UInt32.toNat, BitVec.toNat_ofNatLt]

theorem char_eq_of_toNat_eq {a b : Char} (h : a.toNat = b.toNat) : a = b := by
  apply Char.ext
  apply UInt32.eq_of_toBitVec_eq
  apply BitVec.eq_of_toNat_eq
  exact h

theorem toUpper_toNat_of_lower {c : Char} (h : 97 ≤ c.toNat ∧ c.toNat ≤ 122) :
    c.toUpper.toNat = c.toNat - 32 := by
  unfold Char.toUpper
  rw [if_pos ⟨h.1, h.2⟩]
  exact toNat_ofNat_valid _ (by unfold Nat.isValidChar; omega)

theorem toUpper_eq_self_of_not_lower {c : Char} (h : ¬(97 ≤ c.toNat ∧ c.toNat ≤ 122)) :
    c.toUpper = c := by
  unfold Char.toUpper
  rw [if_neg]
  omega

theorem toUpper_idem (c : Char) : c.toUpper.toUpper = c.toUpper := by
  by_cases h : 97 ≤ c.toNat ∧ c.toNat ≤ 122
  · apply toUpper_eq_self_of_not_lower
    rw [toUpper_toNat_of_lower h]
    omega
  · rw [toUpper_eq_self_of_not_lower h, toUpper_eq_self_of_not_lower h]

theorem isPySpace_false_of_ge {c : Char} (h1 : 65 ≤ c.toNat) : isPySpace c = false := by
  unfold isPySpace
  simp only [Bool.or_eq_false_iff, beq_eq_false_iff_ne]
  refine ⟨⟨⟨⟨⟨?_, ?_⟩, ?_⟩, ?_⟩, ?_⟩, ?_⟩
  all_goals rintro rfl
  all_goals exact absurd h1 (by decide)

theorem isPySpace_toUpper (c : Char) : isPySpace c.toUpper = isPySpace c := by
  by_cases h : 97 ≤ c.toNat ∧ c.toNat ≤ 122
  · have h1 := toUpper_toNat_of_lower h
    have h2 : isPySpace c = false := isPySpace_false_of_ge (by omega)
    have h3 : isPySpace c.toUpper = false := isPySpace_false_of_ge (by omega)
    rw [h2, h3]
  · rw [toUpper_eq_self_of_not_lower h]

theorem dropWhile_dropWhile {α : Type} (p : α → Bool) (l : List α) :
    List.dropWhile p (List.dropWhile p l) = List.dropWhile p l := by
  induction l with
  | nil => rfl
  | cons a t ih =>
    by_cases h : p a
    · simp [List.dropWhile_cons, h, ih]
    · simp [List.dropWhile_cons, h]

/-- The character-list form of `pyStrip`. -/
def trimList (l : List Char) : List Char :=
  ((l.dropWhile isPySpace).reverse.dropWhile isPySpace).reverse

theorem pyStrip_eq_trimList (s : String) : pyStrip s = ⟨trimList s.data⟩ := rfl

theorem trimList_head_not_space {l : List Char} {x : Char} {xs : List Char}
    (h : trimList l = x :: xs) : isPySpace x = false := by
  obtain ⟨t, ht⟩ := List.dropWhile_suffix (l := (l.dropWhile isPySpace).reverse) isPySpace
  have hA : l.dropWhile isPySpace = x :: (xs ++ t.reverse) := by
    have h2 := congrArg List.reverse ht
    rw [List.reverse_append, List.reverse_reverse] at h2
    rw [show ((l.dropWhile isPySpace).reverse.dropWhile isPySpace).reverse = trimList l from rfl,
      h] at h2
    simpa using h2.symm
  have hne : l.dropWhile isPySpace ≠ [] := by rw [hA]; simp
  have := List.head_dropWhile_not isPySpace l hne
  simp only [hA, List.head_cons] at this
  exact this

theorem dropWhile_trimList (l : List Char) :
    List.dropWhile isPySpace (trimList l) = trimList l := by
  cases h : trimList l with
  | nil => rfl
  | cons x xs =>
    rw [List.dropWhile_cons, trimList_head_not_space h]
    simp

theorem trimList_idem (l : List Char) : trimList (trimList l) = trimList l := by
  show ((List.dropWhile isPySpace (trimList l)).reverse.dropWhile isPySpace).reverse = trimList l
  rw [dropWhile_trimList]
  show (((((l.dropWhile isPySpace).reverse.dropWhile isPySpace).reverse).reverse.dropWhile
    isPySpace).reverse) = trimList l
  rw [List.reverse_reverse, dropWhile_dropWhile]
  rfl

theorem trimList_map_toUpper (l : List Char) :
    trimList (l.map Char.toUpper) = (trimList l).map Char.toUpper := by
  unfold trimList
  have hcomp : (isPySpace ∘ Char.toUpper) = isPySpace := by
    funext c
    exact isPySpace_toUpper c
  rw [List.dropWhile_map, hcomp, ← List.map_reverse, List.dropWhile_map, hcomp,
    ← List.map_reverse]

theorem pyUpper_pyStrip_norm (s : String) :
    pyStrip (pyUpper (pyStrip s)) = pyUpper (pyStrip s) := by
  show (⟨trimList ((trimList s.data).map Char.toUpper)⟩ : String) = _
  rw [trimList_map_toUpper, trimList_idem]
  rfl

theorem pyUpper_idem (s : String) : pyUpper (pyUpper s) = pyUpper s := by
  show (⟨(s.data.map Char.toUpper).map Char.toUpper⟩ : String) = _
  rw [List.map_map]
  congr 1
  exact List.map_congr_left fun c _ => toUpper_idem c

theorem pyUpper_pyStrip_fixed (s : String) :
    pyUpper (pyStrip (pyUpper (pyStrip s))) = pyUpper (pyStrip s) := by
  rw [pyUpper_pyStrip_norm, pyUpper_idem]

theorem proxy_lookup_cases {s v : String} (h : proxy_map.lookup s = some v) :
    s = "^GSPC" ∧ v = "SPY" ∨ s = "^IXIC" ∧ v = "QQQ" ∨
    s = "^TNX" ∧ v = "IEF" ∨ s = "GC=F" ∧ v = "GLD" := by
  simp only [proxy_map, List.lookup] at h
  repeat' split at h
  all_goals simp_all [beq_iff_eq]

theorem resolve_crypto_branch (s : String)
    (h : (pyContainsChar (pyUpper (pyStrip s)) '-' &&
      pyEndsWith (pyUpper (pyStrip s)) "-USD") = true) :
    resolve_alpha_vantage_symbol s = (pyUpper (pyStrip s), "crypto") := by
  simp only [resolve_alpha_vantage_symbol]
  rw [if_pos h]

theorem resolve_proxy_branch (s v : String)
    (hc : (pyContainsChar (pyUpper (pyStrip s)) '-' &&
      pyEndsWith (pyUpper (pyStrip s)) "-USD") = false)
    (hl : proxy_map.lookup (pyUpper (pyStrip s)) = some v) :
    resolve_alpha_vantage_symbol s = (v, "proxy_for:" ++ pyUpper (pyStrip s)) := by
  simp only [resolve_alpha_vantage_symbol]
  rw [if_neg (by rw [hc]; exact Bool.false_ne_true), hl]

theorem resolve_skip_branch (s : String)
    (hc : (pyContainsChar (pyUpper (pyStrip s)) '-' &&
      pyEndsWith (pyUpper (pyStrip s)) "-USD") = false)
    (hl : proxy_map.lookup (pyUpper (pyStrip s)) = none)
    (hsk : (pyStartsWith (pyUpper (pyStrip s)) "^" ||
      pyContainsSub (pyUpper (pyStrip s)) "=F") = true) :
    resolve_alpha_vantage_symbol s = ("", "skip_unsupported") := by
  simp only [resolve_alpha_vantage_symbol]
  rw [if_neg (by rw [hc]; exact Bool.false_ne_true), hl]
  rw [if_pos hsk]

theorem resolve_equity_branch (s : String)
    (hc : (pyContainsChar (pyUpper (pyStrip s)) '-' &&
      pyEndsWith (pyUpper (pyStrip s)) "-USD") = false)
    (hl : proxy_map.lookup (pyUpper (pyStrip s)) = none)
    (hsk : (pyStartsWith (pyUpper (pyStrip s)) "^" ||
      pyContainsSub (pyUpper (pyStrip s)) "=F") = false) :
    resolve_alpha_vantage_symbol s = (pyUpper (pyStrip s), "equity") := by
  simp only [resolve_alpha_vantage_symbol]
  rw [if_neg (by rw [hc]; exact Bool.false_ne_true), hl]
  rw [if_neg (by rw [hsk]; exact Bool.false_ne_true)]

/-! ## Claims C4, C7, C8, C10: symbol resolution -/

/-- C4 (counterexample): the input `"^A-USD"` starts with `^` (also after
trimming and uppercasing), is not a key of the static proxy table, yet
`resolve_alpha_vantage_symbol` classifies it as crypto and does **not** return
`("", "skip_unsupported")`: the crypto check runs before the skip check. -/
theorem C4_counterexample :
    pyStartsWith (pyUpper (pyStrip "^A-USD")) "^" = true ∧
    pyStartsWith "^A-USD" "^" = true ∧
    proxy_map.lookup "^A-USD" = none ∧
    proxy_map.lookup (pyUpper (pyStrip "^A-USD")) = none ∧
    resolve_alpha_vantage_symbol "^A-USD" = ("^A-USD", "crypto") ∧
    resolve_alpha_vantage_symbol "^A-USD" ≠ ("", "skip_unsupported") := by
  decide

/-- C4 (amended): for every input whose trimmed, uppercased form starts with
`^` or contains `=F`, is not itself a key of the static proxy table, and does
not have the crypto shape (containing `-` and ending with `-USD`),
`resolve_alpha_vantage_symbol` returns `("", "skip_unsupported")`. -/
theorem C4_skip_unsupported (s : String)
    (hsk : (pyStartsWith (pyUpper (pyStrip s)) "^" ||
      pyContainsSub (pyUpper (pyStrip s)) "=F") = true)
    (hl : proxy_map.lookup (pyUpper (pyStrip s)) = none)
    (hc : (pyContainsChar (pyUpper (pyStrip s)) '-' &&
      pyEndsWith (pyUpper (pyStrip s)) "-USD") = false) :
    resolve_alpha_vantage_symbol s = ("", "skip_unsupported") :=
  resolve_skip_branch s hc hl hsk

/-- C4 (witness): the amended claim applied to the concrete input `"ES=F"`. -/
theorem C4_skip_unsupported_witness :
    resolve_alpha_vantage_symbol "ES=F" = ("", "skip_unsupported") :=
  C4_skip_unsupported "ES=F" (by decide) (by decide) (by decide)

/-- C7 (counterexample): `"btc-usd"` contains `-` and ends with `-USD`
case-insensitively, but the fetch symbol returned is the uppercased form
`"BTC-USD"`, not the input unchanged. -/
theorem C7_counterexample :
    pyContainsChar "btc-usd" '-' = true ∧
    pyEndsWith (pyUpper "btc-usd") "-USD" = true ∧
    resolve_alpha_vantage_symbol "btc-usd" = ("BTC-USD", "crypto") ∧
    (resolve_alpha_vantage_symbol "btc-usd").1 ≠ "btc-usd" := by
  decide

/-- C7 (amended): for every input whose trimmed, uppercased form contains the
separator `-` and ends with `-USD`, `resolve_alpha_vantage_symbol` returns
classification `crypto` and the trimmed, uppercased input as the fetch
symbol. -/
theorem C7_crypto_passthrough (s : String)
    (h : (pyContainsChar (pyUpper (pyStrip s)) '-' &&
      pyEndsWith (pyUpper (pyStrip s)) "-USD") = true) :
    resolve_alpha_vantage_symbol s = (pyUpper (pyStrip s), "crypto") :=
  resolve_crypto_branch s h

/-- C7 (witness): the amended claim applied to `"BTC-USD"`, on which the fetch
symbol is indeed the input unchanged. -/
theorem C7_crypto_passthrough_witness :
    resolve_alpha_vantage_symbol "BTC-USD" = ("BTC-USD", "crypto") :=
  (C7_crypto_passthrough "BTC-USD" (by decide)).trans (by decide)

/-- C8: every input present in the static proxy table resolves to the mapped
substitute with classification `proxy_for:<input>`; in particular `"^GSPC"`
resolves to `("SPY", "proxy_for:^GSPC")`. -/
theorem C8_proxy_resolution :
    (∀ s v : String, proxy_map.lookup s = some v →
      resolve_alpha_vantage_symbol s = (v, "proxy_for:" ++ s)) ∧
    resolve_alpha_vantage_symbol "^GSPC" = ("SPY", "proxy_for:^GSPC") := by
  constructor
  · intro s v h
    rcases proxy_lookup_cases h with ⟨rfl, rfl⟩ | ⟨rfl, rfl⟩ | ⟨rfl, rfl⟩ | ⟨rfl, rfl⟩ <;> decide
  · decide

/-- C8 (witness): the proxy rule applied to the concrete key `"^IXIC"`. -/
theorem C8_proxy_resolution_witness :
    resolve_alpha_vantage_symbol "^IXIC" = ("QQQ", "proxy_for:^IXIC") :=
  (C8_proxy_resolution.1 "^IXIC" "QQQ" (by decide)).trans (by decide)

/-- C10: resolution is idempotent on the fetch symbol: feeding the fetch
symbol returned by `resolve_alpha_vantage_symbol` back into it returns the
same fetch symbol (for all four branches: crypto, proxy, skip, equity). -/
theorem C10_resolution_idempotent (s : String) :
    (resolve_alpha_vantage_symbol (resolve_alpha_vantage_symbol s).1).1 =
      (resolve_alpha_vantage_symbol s).1 := by
  have hfix := pyUpper_pyStrip_fixed s
  by_cases hc : (pyContainsChar (pyUpper (pyStrip s)) '-' &&
      pyEndsWith (pyUpper (pyStrip s)) "-USD") = true
  · rw [resolve_crypto_branch s hc]
    have h2 : resolve_alpha_vantage_symbol (pyUpper (pyStrip s)) =
        (pyUpper (pyStrip (pyUpper (pyStrip s))), "crypto") :=
      resolve_crypto_branch _ (by rw [hfix]; exact hc)
    rw [h2, hfix]
  · rw [Bool.not_eq_true] at hc
    cases hl : proxy_map.lookup (pyUpper (pyStrip s)) with
    | some v =>
      rw [resolve_proxy_branch s v hc hl]
      show (resolve_alpha_vantage_symbol v).1 = v
      rcases proxy_lookup_cases hl with ⟨-, rfl⟩ | ⟨-, rfl⟩ | ⟨-, rfl⟩ | ⟨-, rfl⟩ <;> decide
    | none =>
      by_cases hsk : (pyStartsWith (pyUpper (pyStrip s)) "^" ||
          pyContainsSub (pyUpper (pyStrip s)) "=F") = true
      · rw [resolve_skip_branch s hc hl hsk]
        decide
      · rw [Bool.not_eq_true] at hsk
        rw [resolve_equity_branch s hc hl hsk]
        have h2 : resolve_alpha_vantage_symbol (pyUpper (pyStrip s)) =
            (pyUpper (pyStrip (pyUpper (pyStrip s))), "equity") :=
          resolve_equity_branch _ (by rw [hfix]; exact hc) (by rw [hfix]; exact hl)
            (by rw [hfix]; exact hsk)
        rw [h2, hfix]

/-! ## `aggregate_intraday_to_daily` (ingested_multiple_symbols.py, lines 46–77) -/

/-- An intraday candle dict `{"ts", "open", "high", "low", "close", "volume"}`
as fed to `aggregate_intraday_to_daily`.  Prices are exact rationals, the
nullable volume is `Option Int`. -/
structure Candle where
  ts : String
  open_ : ℚ
  high : ℚ
  low : ℚ
  close : ℚ
  volume : Option Int
deriving DecidableEq, Repr

/-- A daily bar as built by `aggregate_intraday_to_daily`. -/
structure Bar where
  open_ : ℚ
  high : ℚ
  low : ℚ
  close : ℚ
  volume : Int
  first_ts : String
  last_ts : String
deriving DecidableEq, Repr

/-- `date_key = c["ts"][0:10]`. -/
def date_key (c : Candle) : String :=
  ⟨c.ts.data.take 10⟩

/-- The new bar created when a date key is first seen
(`volume` is `c.get("volume") or 0`, i.e. `0` when null). -/
def initBar (c : Candle) : Bar :=
  { open_ := c.open_
    high := c.high
    low := c.low
    close := c.close
    volume := c.volume.getD 0
    first_ts := c.ts
    last_ts := c.ts }

/-- The in-place update of an existing bar for one more candle `c`.  Field by
field this is the Python `else` block: `high`/`low` take `max`/`min`;
`first_ts`/`open` change exactly when `c["ts"] < bar["first_ts"]`;
`last_ts`/`close` change exactly when `c["ts"] > bar["last_ts"]` (the update
of `first_ts` does not affect `last_ts`, so the two tests read the incoming
bar); `volume` becomes `(bar["volume"] or 0) + (c.get("volume") or 0)`, and
since `bar["volume"]` is always an integer and `x or 0 = x` also for `x = 0`,
this is `bar.volume + c.volume.getD 0`.  Timestamp comparison is Python's
lexicographic string order, i.e. the lexicographic order on the character
lists. -/
def updateBar (bar : Bar) (c : Candle) : Bar :=
  { open_ := if c.ts.data < bar.first_ts.data then c.open_ else bar.open_
    high := max bar.high c.high
    low := min bar.low c.low
    close := if bar.last_ts.data < c.ts.data then c.close else bar.close
    volume := bar.volume + c.volume.getD 0
    first_ts := if c.ts.data < bar.first_ts.data then c.ts else bar.first_ts
    last_ts := if bar.last_ts.data < c.ts.data then c.ts else bar.last_ts }

/-- One iteration of the `for c in intraday` loop: look up the candle's date
key in `by_date` and either insert a fresh bar or update the existing one.
The Python dict is modelled as the map `String → Option Bar` (the claims only
concern its contents, and Python dict equality ignores insertion order). -/
def aggStep (by_date : String → Option Bar) (c : Candle) : String → Option Bar :=
  match by_date (date_key c) with
  | none => fun k => if k = date_key c then some (initBar c) else by_date k
  | some bar => fun k => if k = date_key c then some (updateBar bar c) else by_date k

/-- `aggregate_intraday_to_daily(intraday)`: fold the loop body over the
input list, starting from the empty dict. -/
def aggregate_intraday_to_daily (intraday : List Candle) : String → Option Bar :=
  intraday.foldl aggStep fun _ => none

/-- The spec's worked example, reverse-chronological order:
13:00 candle (o=10,h=12,l=9,c=11,v=100) before 09:00 candle (o=8,h=9,l=7,c=9,v=50). -/
def exCandle1300 : Candle :=
  { ts := "2025-09-22 13:00:00", open_ := 10, high := 12, low := 9, close := 11,
    volume := some 100 }

def exCandle0900 : Candle :=
  { ts := "2025-09-22 09:00:00", open_ := 8, high := 9, low := 7, close := 9,
    volume := some 50 }

example :
    aggregate_intraday_to_daily [exCandle1300, exCandle0900] "2025-09-22" =
      some { open_ := 8, high := 12, low := 7, close := 11, volume := 150,
             first_ts := "2025-09-22 09:00:00", last_ts := "2025-09-22 13:00:00" } := by
  decide

/-! ## Aggregation invariant -/

/-- The candles of `l` whose date key is `d` (in list order). -/
def groupOf (l : List Candle) (d : String) : List Candle :=
  l.filter fun c => date_key c == d

theorem string_data_inj {a b : String} (h : a.data = b.data) : a = b :=
  congrArg String.mk h

theorem mem_groupOf {l : List Candle} {d : String} {x : Candle} :
    x ∈ groupOf l d ↔ x ∈ l ∧ date_key x = d := by
  simp [groupOf, List.mem_filter]

theorem agg_append (l : List Candle) (c : Candle) :
    aggregate_intraday_to_daily (l ++ [c]) = aggStep (aggregate_intraday_to_daily l) c := by
  simp [aggregate_intraday_to_daily, List.foldl_append]

theorem aggStep_ne (m : String → Option Bar) (c : Candle) (d : String)
    (h : d ≠ date_key c) : aggStep m c d = m d := by
  unfold aggStep
  cases hm : m (date_key c) <;> simp [h]

theorem aggStep_at_key_none (m : String → Option Bar) (c : Candle)
    (h : m (date_key c) = none) : aggStep m c (date_key c) = some (initBar c) := by
  unfold aggStep
  rw [h]
  simp

theorem aggStep_at_key_some (m : String → Option Bar) (c : Candle) (bar : Bar)
    (h : m (date_key c) = some bar) : aggStep m c (date_key c) = some (updateBar bar c) := by
  unfold aggStep
  rw [h]
  simp

theorem groupOf_append_ne {c : Candle} {d : String} (l : List Candle)
    (h : date_key c ≠ d) : groupOf (l ++ [c]) d = groupOf l d := by
  simp [groupOf, List.filter_append, h]

theorem groupOf_append_eq {c : Candle} {d : String} (l : List Candle)
    (h : date_key c = d) : groupOf (l ++ [c]) d = groupOf l d ++ [c] := by
  simp [groupOf, List.filter_append, h]

/-- The relation between a daily bar and the group of candles it aggregates:
`open`/`first_ts` come from a group member whose timestamp is minimal,
`close`/`last_ts` from one whose timestamp is maximal, `high`/`low` are
attained bounds, and `volume` is the sum of the (null-defaulted) volumes. -/
def BarInv (l : List Candle) (d : String) (bar : Bar) : Prop :=
  (∃ c ∈ groupOf l d, c.ts = bar.first_ts ∧ bar.open_ = c.open_) ∧
  (∀ c ∈ groupOf l d, bar.first_ts.data ≤ c.ts.data) ∧
  (∃ c ∈ groupOf l d, c.ts = bar.last_ts ∧ bar.close = c.close) ∧
  (∀ c ∈ groupOf l d, c.ts.data ≤ bar.last_ts.data) ∧
  (∃ c ∈ groupOf l d, bar.high = c.high) ∧
  (∀ c ∈ groupOf l d, c.high ≤ bar.high) ∧
  (∃ c ∈ groupOf l d, bar.low = c.low) ∧
  (∀ c ∈ groupOf l d, bar.low ≤ c.low) ∧
  bar.volume = ((groupOf l d).map fun c => c.volume.getD 0).sum

theorem BarInv_of_groupOf_eq {l l2 : List Candle} {d : String} {bar : Bar}
    (h : groupOf l2 d = groupOf l d) (inv : BarInv l d bar) : BarInv l2 d bar := by
  unfold BarInv at inv ⊢
  rw [h]
  exact inv

theorem BarInv_init {l : List Candle} {d : String} {c : Candle}
    (h2 : groupOf l d = []) (hd : date_key c = d) : BarInv (l ++ [c]) d (initBar c) := by
  unfold BarInv
  rw [groupOf_append_eq l hd, h2]
  simp [initBar]

theorem BarInv_update {l : List Candle} {d : String} {c : Candle} {bar : Bar}
    (hd : date_key c = d) (inv : BarInv l d bar) :
    BarInv (l ++ [c]) d (updateBar bar c) := by
  obtain ⟨⟨cf, hcf, hcfts, hcfopen⟩, hmin, ⟨cl, hcl, hclts, hclclose⟩, hmax,
    ⟨ch, hch, hchhigh⟩, hhigh, ⟨clo, hclo, hclolow⟩, hlow, hvol⟩ := inv
  unfold BarInv
  rw [groupOf_append_eq l hd]
  refine ⟨?_, ?_, ?_, ?_, ?_, ?_, ?_, ?_, ?_⟩
  · by_cases hlt : c.ts.data < bar.first_ts.data
    · exact ⟨c, List.mem_append_right _ (List.mem_singleton_self c),
        by simp [updateBar, hlt]⟩
    · exact ⟨cf, List.mem_append_left _ hcf,
        by simp [updateBar, hlt, hcfts, hcfopen]⟩
  · intro x hx
    rcases List.mem_append.mp hx with hx | hx
    · by_cases hlt : c.ts.data < bar.first_ts.data
      · simp only [updateBar, if_pos hlt]
        exact le_trans (le_of_lt hlt) (hmin x hx)
      · simp only [updateBar, if_neg hlt]
        exact hmin x hx
    · rw [List.mem_singleton.mp hx]
      by_cases hlt : c.ts.data < bar.first_ts.data
      · simp [updateBar, hlt]
      · simp only [updateBar, if_neg hlt]
        exact not_lt.mp hlt
  · by_cases hgt : bar.last_ts.data < c.ts.data
    · exact ⟨c, List.mem_append_right _ (List.mem_singleton_self c),
        by simp [updateBar, hgt]⟩
    · exact ⟨cl, List.mem_append_left _ hcl,
        by simp [updateBar, hgt, hclts, hclclose]⟩
  · intro x hx
    rcases List.mem_append.mp hx with hx | hx
    · by_cases hgt : bar.last_ts.data < c.ts.data
      · simp only [updateBar, if_pos hgt]
        exact le_trans (hmax x hx) (le_of_lt hgt)
      · simp only [updateBar, if_neg hgt]
        exact hmax x hx
    · rw [List.mem_singleton.mp hx]
      by_cases hgt : bar.last_ts.data < c.ts.data
      · simp [updateBar, hgt]
      · simp only [updateBar, if_neg hgt]
        exact not_lt.mp hgt
  · rcases max_choice bar.high c.high with h | h
    · exact ⟨ch, List.mem_append_left _ hch, by simp only [updateBar]; rw [h, hchhigh]⟩
    · exact ⟨c, List.mem_append_right _ (List.mem_singleton_self c),
        by simp only [updateBar]; rw [h]⟩
  · intro x hx
    rcases List.mem_append.mp hx with hx | hx
    · exact le_trans (hhigh x hx) (le_max_left _ _)
    · rw [List.mem_singleton.mp hx]
      exact le_max_right _ _
  · rcases min_choice bar.low c.low with h | h
    · exact ⟨clo, List.mem_append_left _ hclo, by simp only [updateBar]; rw [h, hclolow]⟩
    · exact ⟨c, List.mem_append_right _ (List.mem_singleton_self c),
        by simp only [updateBar]; rw [h]⟩
  · intro x hx
    rcases List.mem_append.mp hx with hx | hx
    · exact le_trans (min_le_left _ _) (hlow x hx)
    · rw [List.mem_singleton.mp hx]
      exact min_le_right _ _
  · simp only [updateBar, List.map_append, List.sum_append, List.map_cons, List.map_nil]
    rw [hvol]
    simp

theorem aggregate_cases (l : List Candle) (d : String) :
    (aggregate_intraday_to_daily l d = none ∧ groupOf l d = []) ∨
    ∃ bar, aggregate_intraday_to_daily l d = some bar ∧ BarInv l d bar := by
  induction l using List.reverseRecOn with
  | nil => exact Or.inl ⟨rfl, rfl⟩
  | append_singleton l c ih =>
    rw [agg_append]
    by_cases hd : d = date_key c
    · subst hd
      rcases ih with ⟨h1, h2⟩ | ⟨bar, h1, inv⟩
      · exact Or.inr ⟨initBar c, aggStep_at_key_none _ _ h1, BarInv_init h2 rfl⟩
      · exact Or.inr ⟨updateBar bar c, aggStep_at_key_some _ _ _ h1, BarInv_update rfl inv⟩
    · have hne : date_key c ≠ d := fun h => hd h.symm
      rcases ih with ⟨h1, h2⟩ | ⟨bar, h1, inv⟩
      · exact Or.inl ⟨by rw [aggStep_ne _ _ _ hd]; exact h1,
          by rw [groupOf_append_ne l hne]; exact h2⟩
      · exact Or.inr ⟨bar, by rw [aggStep_ne _ _ _ hd]; exact h1,
          BarInv_of_groupOf_eq (groupOf_append_ne l hne) inv⟩

/-! ## Claims C1, C2: intraday-to-daily aggregation -/

/-- C1: for every candle list and every date `d` appearing as the first 10
characters of some candle's timestamp, the bar returned under key `d` has
`open` from a candle of date `d` with minimal timestamp, `close` from one
with maximal timestamp, `high` the maximum of the group's highs, `low` the
minimum of its lows, and `volume` the sum of its volumes with null counted
as 0. -/
theorem C1_daily_bar_correct (l : List Candle) (d : String)
    (h : ∃ c ∈ l, date_key c = d) :
    ∃ bar, aggregate_intraday_to_daily l d = some bar ∧
      (∃ c ∈ l, date_key c = d ∧
        (∀ c2 ∈ l, date_key c2 = d → c.ts.data ≤ c2.ts.data) ∧ bar.open_ = c.open_) ∧
      (∃ c ∈ l, date_key c = d ∧
        (∀ c2 ∈ l, date_key c2 = d → c2.ts.data ≤ c.ts.data) ∧ bar.close = c.close) ∧
      (∃ c ∈ l, date_key c = d ∧ bar.high = c.high) ∧
      (∀ c ∈ l, date_key c = d → c.high ≤ bar.high) ∧
      (∃ c ∈ l, date_key c = d ∧ bar.low = c.low) ∧
      (∀ c ∈ l, date_key c = d → bar.low ≤ c.low) ∧
      bar.volume = ((l.filter fun c => date_key c == d).map fun c => c.volume.getD 0).sum := by
  obtain ⟨c0, hc0, hc0d⟩ := h
  rcases aggregate_cases l d with ⟨h1, h2⟩ | ⟨bar, h1, inv⟩
  · exact absurd (mem_groupOf.mpr ⟨hc0, hc0d⟩) (by rw [h2]; exact List.not_mem_nil c0)
  · obtain ⟨⟨cf, hcf, hcfts, hcfopen⟩, hmin, ⟨cl, hcl, hclts, hclclose⟩, hmax,
      ⟨ch, hch, hchhigh⟩, hhigh, ⟨clo, hclo, hclolow⟩, hlow, hvol⟩ := inv
    refine ⟨bar, h1, ?_, ?_, ?_, ?_, ?_, ?_, hvol⟩
    · obtain ⟨hcfmem, hcfd⟩ := mem_groupOf.mp hcf
      exact ⟨cf, hcfmem, hcfd,
        fun c2 h2m h2d => hcfts ▸ hmin c2 (mem_groupOf.mpr ⟨h2m, h2d⟩), hcfopen⟩
    · obtain ⟨hclmem, hcld⟩ := mem_groupOf.mp hcl
      exact ⟨cl, hclmem, hcld,
        fun c2 h2m h2d => hclts ▸ hmax c2 (mem_groupOf.mpr ⟨h2m, h2d⟩), hclclose⟩
    · obtain ⟨hm, hd2⟩ := mem_groupOf.mp hch
      exact ⟨ch, hm, hd2, hchhigh⟩
    · exact fun c2 h2m h2d => hhigh c2 (mem_groupOf.mpr ⟨h2m, h2d⟩)
    · obtain ⟨hm, hd2⟩ := mem_groupOf.mp hclo
      exact ⟨clo, hm, hd2, hclolow⟩
    · exact fun c2 h2m h2d => hlow c2 (mem_groupOf.mpr ⟨h2m, h2d⟩)

/-- C1 (witness): the characterisation instantiated on the spec's two-candle
example at date `2025-09-22`. -/
theorem C1_daily_bar_correct_witness :
    ∃ bar, aggregate_intraday_to_daily [exCandle1300, exCandle0900] "2025-09-22" = some bar ∧
      (∃ c ∈ [exCandle1300, exCandle0900], date_key c = "2025-09-22" ∧
        (∀ c2 ∈ [exCandle1300, exCandle0900], date_key c2 = "2025-09-22" →
          c.ts.data ≤ c2.ts.data) ∧ bar.open_ = c.open_) ∧
      (∃ c ∈ [exCandle1300, exCandle0900], date_key c = "2025-09-22" ∧
        (∀ c2 ∈ [exCandle1300, exCandle0900], date_key c2 = "2025-09-22" →
          c2.ts.data ≤ c.ts.data) ∧ bar.close = c.close) ∧
      (∃ c ∈ [exCandle1300, exCandle0900], date_key c = "2025-09-22" ∧ bar.high = c.high) ∧
      (∀ c ∈ [exCandle1300, exCandle0900], date_key c = "2025-09-22" → c.high ≤ bar.high) ∧
      (∃ c ∈ [exCandle1300, exCandle0900], date_key c = "2025-09-22" ∧ bar.low = c.low) ∧
      (∀ c ∈ [exCandle1300, exCandle0900], date_key c = "2025-09-22" → bar.low ≤ c.low) ∧
      bar.volume = (([exCandle1300, exCandle0900].filter
        fun c => date_key c == "2025-09-22").map fun c => c.volume.getD 0).sum :=
  C1_daily_bar_correct [exCandle1300, exCandle0900] "2025-09-22" (by decide)

/-- Two candles sharing one timestamp but with different opens: the fold keeps
the open (and close) of whichever appears first in the list. -/
def dupCandleA : Candle :=
  { ts := "2025-09-22 09:00:00", open_ := 1, high := 1, low := 1, close := 1,
    volume := some 1 }

def dupCandleB : Candle :=
  { ts := "2025-09-22 09:00:00", open_ := 2, high := 2, low := 2, close := 2,
    volume := some 2 }

/-- C2 (counterexample): aggregation is **not** invariant under every
permutation: two candles with equal timestamps keep the first-seen open and
close, so swapping them changes the bar for `2025-09-22`. -/
theorem C2_counterexample :
    List.Perm [dupCandleB, dupCandleA] [dupCandleA, dupCandleB] ∧
    aggregate_intraday_to_daily [dupCandleA, dupCandleB] ≠
      aggregate_intraday_to_daily [dupCandleB, dupCandleA] := by
  constructor
  · exact List.Perm.swap dupCandleA dupCandleB []
  · intro h
    exact absurd (congrFun h "2025-09-22") (by decide)

theorem groupOf_perm {l l2 : List Candle} (d : String) (hperm : l2.Perm l) :
    (groupOf l2 d).Perm (groupOf l d) :=
  hperm.filter _

/-- The per-date bars agree on every date for timestamp-distinct permuted
inputs (the inner lemma behind C2). -/
theorem aggregate_perm_invariant (l l2 : List Candle)
    (hnodup : (l.map Candle.ts).Nodup) (hperm : l2.Perm l) :
    aggregate_intraday_to_daily l2 = aggregate_intraday_to_daily l := by
  funext d
  have hmem : ∀ x, x ∈ groupOf l2 d ↔ x ∈ groupOf l d :=
    fun x => (groupOf_perm d hperm).mem_iff
  have hinj : ∀ x ∈ l, ∀ y ∈ l, x.ts = y.ts → x = y :=
    fun x hx y hy h => List.inj_on_of_nodup_map hnodup hx hy h
  rcases aggregate_cases l d with ⟨h1, h2⟩ | ⟨bar, h1, inv⟩ <;>
    rcases aggregate_cases l2 d with ⟨h1', h2'⟩ | ⟨bar2, h1', inv2⟩
  · rw [h1, h1']
  · obtain ⟨⟨cf, hcf, -, -⟩, -⟩ := inv2
    exact absurd ((hmem cf).mp hcf) (by rw [h2]; exact List.not_mem_nil cf)
  · obtain ⟨⟨cf, hcf, -, -⟩, -⟩ := inv
    have hmem2 : cf ∈ groupOf l2 d := (hmem cf).mpr hcf
    rw [h2'] at hmem2
    exact absurd hmem2 (List.not_mem_nil cf)
  · obtain ⟨⟨cf, hcf, hcfts, hcfopen⟩, hmin, ⟨cl, hcl, hclts, hclclose⟩, hmax,
      ⟨ch, hch, hchhigh⟩, hhigh, ⟨clo, hclo, hclolow⟩, hlow, hvol⟩ := inv
    obtain ⟨⟨cf2, hcf2, hcf2ts, hcf2open⟩, hmin2, ⟨cl2, hcl2, hcl2ts, hcl2close⟩, hmax2,
      ⟨ch2, hch2, hch2high⟩, hhigh2, ⟨clo2, hclo2, hclo2low⟩, hlow2, hvol2⟩ := inv2
    have hft : bar2.first_ts = bar.first_ts := by
      apply string_data_inj
      apply le_antisymm
      · exact hcfts.symm ▸ hmin2 cf ((hmem cf).mpr hcf)
      · exact hcf2ts.symm ▸ hmin cf2 ((hmem cf2).mp hcf2)
    have hlt : bar2.last_ts = bar.last_ts := by
      apply string_data_inj
      apply le_antisymm
      · exact hcl2ts.symm ▸ hmax cl2 ((hmem cl2).mp hcl2)
      · exact hclts.symm ▸ hmax2 cl ((hmem cl).mpr hcl)
    have hcfeq : cf2 = cf := by
      apply hinj cf2 (mem_groupOf.mp ((hmem cf2).mp hcf2)).1 cf (mem_groupOf.mp hcf).1
      rw [hcf2ts, hcfts, hft]
    have hcleq : cl2 = cl := by
      apply hinj cl2 (mem_groupOf.mp ((hmem cl2).mp hcl2)).1 cl (mem_groupOf.mp hcl).1
      rw [hcl2ts, hclts, hlt]
    have hopen : bar2.open_ = bar.open_ := by
      rw [hcf2open, hcfeq, ← hcfopen]
    have hclose : bar2.close = bar.close := by
      rw [hcl2close, hcleq, ← hclclose]
    have hhi : bar2.high = bar.high := by
      apply le_antisymm
      · exact hch2high.symm ▸ hhigh ch2 ((hmem ch2).mp hch2)
      · exact hchhigh.symm ▸ hhigh2 ch ((hmem ch).mpr hch)
    have hlo : bar2.low = bar.low := by
      apply le_antisymm
      · exact hclolow.symm ▸ hlow2 clo ((hmem clo).mpr hclo)
      · exact hclo2low.symm ▸ hlow clo2 ((hmem clo2).mp hclo2)
    have hv : bar2.volume = bar.volume := by
      rw [hvol, hvol2]
      exact ((groupOf_perm d hperm).map _).sum_eq
    rw [h1, h1']
    congr 1
    cases bar
    cases bar2
    simp only [Bar.mk.injEq]
    exact ⟨hopen, hhi, hlo, hclose, hv, hft, hlt⟩

/-- C2: aggregation is order-independent for candle lists with pairwise
distinct timestamps (amended: with duplicated timestamps the first occurrence
wins, see the counterexample), and on the spec's reverse-chronological
two-candle example it yields exactly one bar, for `2025-09-22`, with
open 8, close 11, high 12, low 7, volume 150. -/
theorem C2_order_independent :
    (∀ l l2 : List Candle, (l.map Candle.ts).Nodup → l2.Perm l →
      aggregate_intraday_to_daily l2 = aggregate_intraday_to_daily l) ∧
    aggregate_intraday_to_daily [exCandle1300, exCandle0900] "2025-09-22" =
      some { open_ := 8, high := 12, low := 7, close := 11, volume := 150,
             first_ts := "2025-09-22 09:00:00", last_ts := "2025-09-22 13:00:00" } ∧
    ∀ d, d ≠ "2025-09-22" →
      aggregate_intraday_to_daily [exCandle1300, exCandle0900] d = none := by
  refine ⟨aggregate_perm_invariant, by decide, ?_⟩
  intro d hd
  rcases aggregate_cases [exCandle1300, exCandle0900] d with ⟨h1, -⟩ | ⟨bar, h1, inv⟩
  · exact h1
  · obtain ⟨⟨cf, hcf, -, -⟩, -⟩ := inv
    obtain ⟨hm, hdk⟩ := mem_groupOf.mp hcf
    exfalso
    apply hd
    rcases List.mem_cons.mp hm with rfl | hm2
    · exact hdk.symm.trans (by decide)
    · rw [List.mem_singleton.mp hm2] at hdk
      exact hdk.symm.trans (by decide)

/-- C2 (witness): order-independence applied to the spec's example pair in
both orders. -/
theorem C2_order_independent_witness :
    aggregate_intraday_to_daily [exCandle0900, exCandle1300] =
      aggregate_intraday_to_daily [exCandle1300, exCandle0900] :=
  C2_order_independent.1 [exCandle1300, exCandle0900] [exCandle0900, exCandle1300]
    (by decide) (List.Perm.swap exCandle1300 exCandle0900 [])

/-! ## `AlphaVantageProvider.fetch_daily` (providers/alpha_vantage.py)

The HTTP layer (client construction, `raise_for_status`, JSON decoding) is
external plumbing; the embedding starts from the decoded 200-status JSON
body.  Numeric field values are modelled as already-parsed numbers, and a
present field is modelled as `some` (the raw values are non-empty numeric
strings, which are truthy in Python). -/

/-- The classified failures `fetch_daily` raises out of a 200-status body,
per the spec's taxonomy: `"Error Message"` → `upstreamError`, `"Note"` →
`rateLimited`, `"Information"` → `upstreamInfo`, and a missing/non-dict
series key → `missingSeries` (all four are `RuntimeError`s with distinct
message prefixes in the Python source). -/
inductive AVError where
  | upstreamError
  | rateLimited
  | upstreamInfo
  | missingSeries
deriving DecidableEq, Repr

/-- `CandleDaily` of providers/types.py restricted to the fields `fetch_daily`
ever sets (`adjusted_close`, `dividend_amount`, `split_coefficient` keep their
`None` default and are never read). -/
structure CandleDaily where
  date : String
  open_ : ℚ
  high : ℚ
  low : ℚ
  close : ℚ
  volume : Option Int
deriving DecidableEq, Repr

/-- One value of the upstream series dict: the optional numbered fields the
code reads.  `open1a` is `"1a. open (USD)"`, `open1b` is `"1b. open (USD)"`,
…, `open1` is `"1. open"`, …, `volume5` is `"5. volume"`. -/
structure SeriesEntry where
  open1a : Option ℚ
  open1b : Option ℚ
  high2a : Option ℚ
  high2b : Option ℚ
  low3a : Option ℚ
  low3b : Option ℚ
  close4a : Option ℚ
  close4b : Option ℚ
  open1 : Option ℚ
  high2 : Option ℚ
  low3 : Option ℚ
  close4 : Option ℚ
  volume5 : Option Int
deriving DecidableEq, Repr

/-- A decoded 200-status JSON body: the three out-of-band signalling fields
and the function-specific time-series key (`none` models a missing or
non-dict series). -/
structure AVBody where
  errorMessage : Option String
  note : Option String
  information : Option String
  series : Option (List (String × SeriesEntry))
deriving DecidableEq, Repr

/-- The crypto-branch loop body (alpha_vantage.py lines 55–90): if an
`"1a."`/`"1b."` open key is present use the crypto key scheme (preferring the
`a` variant, Python `v.get("1a. …") or v.get("1b. …")`), otherwise the
equity-style scheme with no defaults; entries whose four selected OHLC values
are not all present are skipped (`continue` after a warning), others become a
`CandleDaily` with the optional volume. -/
def parseCryptoEntry (date : String) (v : SeriesEntry) : Option CandleDaily :=
  let cfmt := v.open1a.isSome || v.open1b.isSome
  let open_val := if cfmt then v.open1a.or v.open1b else v.open1
  let high_val := if cfmt then v.high2a.or v.high2b else v.high2
  let low_val := if cfmt then v.low3a.or v.low3b else v.low3
  let close_val := if cfmt then v.close4a.or v.close4b else v.close4
  match open_val, high_val, low_val, close_val with
  | some o, some h, some lo, some cl =>
    some { date := date, open_ := o, high := h, low := lo, close := cl, volume := v.volume5 }
  | _, _, _, _ => none

/-- The equity-branch loop body (alpha_vantage.py lines 132–141): each field
is `float(v.get("<n>. …", 0))`, i.e. a missing field defaults to `0`, and no
entry is ever dropped; the volume stays optional. -/
def parseEquityEntry (date : String) (v : SeriesEntry) : CandleDaily :=
  { date := date, open_ := v.open1.getD 0, high := v.high2.getD 0,
    low := v.low3.getD 0, close := v.close4.getD 0, volume := v.volume5 }

/-- The range predicate of the list comprehension
`(since is None or r.date >= since) and (until is None or r.date <= until)`,
with Python's lexicographic string comparison. -/
def inRange (since untl : Option String) (d : String) : Bool :=
  (match since with
   | none => true
   | some s => decide (s.data ≤ d.data)) &&
  (match untl with
   | none => true
   | some u => decide (d.data ≤ u.data))

/-- `filtered.sort(key=lambda r: r.date)`: Python's `list.sort` is a stable
sort by the key, and a stable sort is a unique function of its input, so it
is modelled by the stable `List.insertionSort` under the non-strict date
order. -/
def sortByDate (l : List CandleDaily) : List CandleDaily :=
  l.insertionSort fun a b => a.date.data ≤ b.date.data

/-- Lines 92–94 / 144–146: keep the rows inside the inclusive `[since, until]`
window, then sort ascending by date. -/
def filterSortByDate (rows : List CandleDaily) (since untl : Option String) :
    List CandleDaily :=
  sortByDate (rows.filter fun r => inRange since untl r.date)

/-- `fetch_daily` on the equity branch (alpha_vantage.py lines 97–146), from
the decoded body: the three out-of-band checks in source order, then the
series extraction, per-entry parsing, filtering and sorting. -/
def fetch_daily_equity (body : AVBody) (since untl : Option String) :
    Except AVError (List CandleDaily) :=
  if body.errorMessage.isSome then .error .upstreamError
  else if body.note.isSome then .error .rateLimited
  else if body.information.isSome then .error .upstreamInfo
  else
    match body.series with
    | none => .error .missingSeries
    | some es =>
      .ok (filterSortByDate (es.map fun p => parseEquityEntry p.1 p.2) since untl)

/-- `fetch_daily` on the crypto branch (alpha_vantage.py lines 30–94): same
checks, but per-entry parsing may drop an entry. -/
def fetch_daily_crypto (body : AVBody) (since untl : Option String) :
    Except AVError (List CandleDaily) :=
  if body.errorMessage.isSome then .error .upstreamError
  else if body.note.isSome then .error .rateLimited
  else if body.information.isSome then .error .upstreamInfo
  else
    match body.series with
    | none => .error .missingSeries
    | some es =>
      .ok (filterSortByDate (es.filterMap fun p => parseCryptoEntry p.1 p.2) since untl)

deriving instance DecidableEq for Except

/-- A complete equity-style series entry. -/
def entryFull : SeriesEntry :=
  { open1a := none, open1b := none, high2a := none, high2b := none,
    low3a := none, low3b := none, close4a := none, close4b := none,
    open1 := some 1, high2 := some 2, low3 := some 1, close4 := some 2,
    volume5 := some 10 }

example :
    fetch_daily_equity
      { errorMessage := none, note := none, information := none,
        series := some [("2022-01-03", entryFull)] } none none =
      .ok [{ date := "2022-01-03", open_ := 1, high := 2, low := 1, close := 2,
             volume := some 10 }] := by
  decide

/-! ## Claim C5: out-of-band error classification -/

/-- A body carrying both an error message and a rate-limit note together with
a valid series. -/
def bodyErrAndNote : AVBody :=
  { errorMessage := some "Invalid API call", note := some "API call frequency",
    information := none, series := some [("2022-01-03", entryFull)] }

/-- C5 (counterexample): a body containing a `Note` key does **not** always
raise the `RateLimited` classification, even with a valid series present: the
error-message check runs first, so a body with both fields raises
`UpstreamError`. -/
theorem C5_counterexample :
    bodyErrAndNote.note.isSome = true ∧
    bodyErrAndNote.series.isSome = true ∧
    fetch_daily_equity bodyErrAndNote none none = .error .upstreamError ∧
    fetch_daily_equity bodyErrAndNote none none ≠ .error .rateLimited ∧
    fetch_daily_crypto bodyErrAndNote none none = .error .upstreamError ∧
    fetch_daily_crypto bodyErrAndNote none none ≠ .error .rateLimited := by
  decide

/-- C5 (amended): the three out-of-band fields each raise their distinct
classified failure, with the source's precedence (error message before note
before information) when several are present; in particular a `Note` key with
no error-message field raises `RateLimited` even when a valid series is also
present, and a body with any of the three fields is never treated as valid
data.  Both the equity and the crypto branch behave identically. -/
theorem C5_error_classification (body : AVBody) (since untl : Option String) :
    (body.errorMessage.isSome = true →
      fetch_daily_equity body since untl = .error .upstreamError ∧
      fetch_daily_crypto body since untl = .error .upstreamError) ∧
    (body.errorMessage = none → body.note.isSome = true →
      fetch_daily_equity body since untl = .error .rateLimited ∧
      fetch_daily_crypto body since untl = .error .rateLimited) ∧
    (body.errorMessage = none → body.note = none → body.information.isSome = true →
      fetch_daily_equity body since untl = .error .upstreamInfo ∧
      fetch_daily_crypto body since untl = .error .upstreamInfo) ∧
    ((body.errorMessage.isSome || body.note.isSome || body.information.isSome) = true →
      ∀ l, fetch_daily_equity body since untl ≠ .ok l ∧
        fetch_daily_crypto body since untl ≠ .ok l) := by
  obtain ⟨em, n, i, se⟩ := body
  cases em <;> cases n <;> cases i <;>
    simp [fetch_daily_equity, fetch_daily_crypto]

/-- C5 (witness): a body whose only out-of-band field is `Note`, with a valid
series also present, raises `RateLimited` on both branches. -/
theorem C5_error_classification_witness :
    fetch_daily_equity
      { errorMessage := none, note := some "API call frequency", information := none,
        series := some [("2022-01-03", entryFull)] } none none = .error .rateLimited ∧
    fetch_daily_crypto
      { errorMessage := none, note := some "API call frequency", information := none,
        series := some [("2022-01-03", entryFull)] } none none = .error .rateLimited :=
  (C5_error_classification _ none none).2.1 rfl rfl

/-! ## Claim C6: entries with missing OHLC fields -/

/-- Spec-side predicate (from the spec's words, for comparison with the
code): the series entry is missing at least one of open/high/low/close in
whichever of the two crypto key schemes applies (`a`/`b` USD-suffixed when an
`"1a."`/`"1b."` open key is present, plain numbered keys otherwise). -/
def cryptoOHLCMissing (v : SeriesEntry) : Bool :=
  if v.open1a.isSome || v.open1b.isSome then
    !((v.open1a.or v.open1b).isSome && (v.high2a.or v.high2b).isSome &&
      (v.low3a.or v.low3b).isSome && (v.close4a.or v.close4b).isSome)
  else
    !(v.open1.isSome && v.high2.isSome && v.low3.isSome && v.close4.isSome)

/-- An equity-style entry with the open field missing. -/
def entryNoOpen : SeriesEntry :=
  { open1a := none, open1b := none, high2a := none, high2b := none,
    low3a := none, low3b := none, close4a := none, close4b := none,
    open1 := none, high2 := some 2, low3 := some 1, close4 := some 2,
    volume5 := some 10 }

/-- A clean body holding exactly one equity-style entry with a missing open. -/
def bodyNoOpen : AVBody :=
  { errorMessage := none, note := none, information := none,
    series := some [("2022-01-03", entryNoOpen)] }

/-- C6 (counterexample): in the equity branch an entry missing its open field
is **not** dropped: it is returned with the missing field defaulted to `0`. -/
theorem C6_counterexample :
    entryNoOpen.open1 = none ∧
    fetch_daily_equity bodyNoOpen none none =
      .ok [{ date := "2022-01-03", open_ := 0, high := 2, low := 1, close := 2,
             volume := some 10 }] ∧
    fetch_daily_equity bodyNoOpen none none ≠ .ok [] := by
  decide

theorem parseCryptoEntry_isNone_iff (date : String) (v : SeriesEntry) :
    parseCryptoEntry date v = none ↔ cryptoOHLCMissing v = true := by
  unfold parseCryptoEntry cryptoOHLCMissing
  by_cases hc : (v.open1a.isSome || v.open1b.isSome) = true
  · simp only [hc, if_true]
    cases h1 : v.open1a.or v.open1b <;> cases h2 : v.high2a.or v.high2b <;>
      cases h3 : v.low3a.or v.low3b <;> cases h4 : v.close4a.or v.close4b <;> simp
  · simp only [hc, if_false, Bool.not_eq_true] at *
    simp only [hc, Bool.false_eq_true, if_false]
    cases h1 : v.open1 <;> cases h2 : v.high2 <;>
      cases h3 : v.low3 <;> cases h4 : v.close4 <;> simp

theorem fetch_daily_equity_ok {body : AVBody} {es : List (String × SeriesEntry)}
    (hem : body.errorMessage = none) (hn : body.note = none)
    (hi : body.information = none) (hs : body.series = some es)
    (since untl : Option String) :
    fetch_daily_equity body since untl =
      .ok (filterSortByDate (es.map fun p => parseEquityEntry p.1 p.2) since untl) := by
  simp [fetch_daily_equity, hem, hn, hi, hs]

theorem fetch_daily_crypto_ok {body : AVBody} {es : List (String × SeriesEntry)}
    (hem : body.errorMessage = none) (hn : body.note = none)
    (hi : body.information = none) (hs : body.series = some es)
    (since untl : Option String) :
    fetch_daily_crypto body since untl =
      .ok (filterSortByDate (es.filterMap fun p => parseCryptoEntry p.1 p.2) since untl) := by
  simp [fetch_daily_crypto, hem, hn, hi, hs]

/-- C6 (amended): in the **crypto** branch an entry is dropped exactly when
its effective OHLC fields are incomplete, the drop never makes `fetch_daily`
fail, and the remaining entries are all returned (filtered to the window, in
some order); in the **equity** branch no entry is dropped — missing OHLC
fields are defaulted to `0` and the entry is kept. -/
theorem C6_missing_ohlc_handling :
    (∀ (date : String) (v : SeriesEntry),
      parseCryptoEntry date v = none ↔ cryptoOHLCMissing v = true) ∧
    (∀ (body : AVBody) (since untl : Option String) (es : List (String × SeriesEntry)),
      body.errorMessage = none → body.note = none → body.information = none →
      body.series = some es →
      (∃ l, fetch_daily_crypto body since untl = .ok l ∧
        l.Perm ((es.filterMap fun p => parseCryptoEntry p.1 p.2).filter
          fun r => inRange since untl r.date)) ∧
      (∃ l, fetch_daily_equity body since untl = .ok l ∧
        l.Perm ((es.map fun p => parseEquityEntry p.1 p.2).filter
          fun r => inRange since untl r.date))) ∧
    (∀ (date : String) (v : SeriesEntry), v.open1 = none →
      (parseEquityEntry date v).open_ = 0) := by
  refine ⟨parseCryptoEntry_isNone_iff, ?_, ?_⟩
  · intro body since untl es hem hn hi hs
    exact ⟨⟨_, fetch_daily_crypto_ok hem hn hi hs since untl, List.perm_insertionSort _ _⟩,
      ⟨_, fetch_daily_equity_ok hem hn hi hs since untl, List.perm_insertionSort _ _⟩⟩
  · intro date v h
    simp [parseEquityEntry, h]

/-- A complete crypto-scheme entry and one missing its highs. -/
def entryCryptoFull : SeriesEntry :=
  { open1a := some 3, open1b := none, high2a := some 4, high2b := none,
    low3a := some 2, low3b := none, close4a := some 3, close4b := none,
    open1 := none, high2 := none, low3 := none, close4 := none, volume5 := none }

def entryCryptoNoHigh : SeriesEntry :=
  { open1a := some 5, open1b := none, high2a := none, high2b := none,
    low3a := some 4, low3b := none, close4a := some 5, close4b := none,
    open1 := none, high2 := none, low3 := none, close4 := none, volume5 := some 7 }

def bodyCryptoMix : AVBody :=
  { errorMessage := none, note := none, information := none,
    series := some [("2022-01-03", entryCryptoFull), ("2022-01-04", entryCryptoNoHigh)] }

/-- C6 (witness): the amended claim on a concrete clean body with one
complete and one incomplete crypto entry. -/
theorem C6_missing_ohlc_handling_witness :
    (∃ l, fetch_daily_crypto bodyCryptoMix none none = .ok l ∧
      l.Perm (([("2022-01-03", entryCryptoFull), ("2022-01-04", entryCryptoNoHigh)].filterMap
        fun p => parseCryptoEntry p.1 p.2).filter fun r => inRange none none r.date)) ∧
    (∃ l, fetch_daily_equity bodyCryptoMix none none = .ok l ∧
      l.Perm (([("2022-01-03", entryCryptoFull), ("2022-01-04", entryCryptoNoHigh)].map
        fun p => parseEquityEntry p.1 p.2).filter fun r => inRange none none r.date)) :=
  C6_missing_ohlc_handling.2.1 bodyCryptoMix none none
    [("2022-01-03", entryCryptoFull), ("2022-01-04", entryCryptoNoHigh)] rfl rfl rfl rfl

/-! ## Claim C9: window filtering and ascending sort -/

theorem inRange_iff (since untl : Option String) (d : String) :
    inRange since untl d = true ↔
      (∀ s0, since = some s0 → s0.data ≤ d.data) ∧
      (∀ u0, untl = some u0 → d.data ≤ u0.data) := by
  cases since <;> cases untl <;> simp [inRange]

theorem sortByDate_sorted (l : List CandleDaily) :
    (sortByDate l).Pairwise fun a b => a.date.data ≤ b.date.data := by
  letI : IsTotal CandleDaily fun a b => a.date.data ≤ b.date.data :=
    ⟨fun a b => le_total _ _⟩
  letI : IsTrans CandleDaily fun a b => a.date.data ≤ b.date.data :=
    ⟨fun a b c => le_trans⟩
  exact List.sorted_insertionSort _ l

/-- Candles dated `2022-01-01` … `2022-01-10`, given in descending order. -/
def mkDay (d : String) : CandleDaily :=
  { date := d, open_ := 1, high := 2, low := 1, close := 2, volume := none }

def exWindowRows : List CandleDaily :=
  [mkDay "2022-01-10", mkDay "2022-01-09", mkDay "2022-01-08", mkDay "2022-01-07",
   mkDay "2022-01-06", mkDay "2022-01-05", mkDay "2022-01-04", mkDay "2022-01-03",
   mkDay "2022-01-02", mkDay "2022-01-01"]

/-- C9: the output of the filter-and-sort stage of `fetch_daily` consists of
exactly the parsed candles whose date lies in the inclusive `[since, until]`
window (a missing bound imposing no restriction), sorted ascending by date;
both branches of `fetch_daily` return exactly this on a clean body, and for
candles dated `2022-01-01`–`2022-01-10` with window
`since="2022-01-05", until="2022-01-07"` exactly the three candles
`05, 06, 07` come back, ascending. -/
theorem C9_window_filter_sort :
    (∀ (rows : List CandleDaily) (since untl : Option String),
      (filterSortByDate rows since untl).Perm
        (rows.filter fun r => inRange since untl r.date) ∧
      (filterSortByDate rows since untl).Pairwise
        (fun a b => a.date.data ≤ b.date.data) ∧
      (∀ c, c ∈ filterSortByDate rows since untl ↔
        c ∈ rows ∧ (∀ s0, since = some s0 → s0.data ≤ c.date.data) ∧
          (∀ u0, untl = some u0 → c.date.data ≤ u0.data))) ∧
    (∀ (body : AVBody) (since untl : Option String) (es : List (String × SeriesEntry)),
      body.errorMessage = none → body.note = none → body.information = none →
      body.series = some es →
      fetch_daily_equity body since untl =
        .ok (filterSortByDate (es.map fun p => parseEquityEntry p.1 p.2) since untl) ∧
      fetch_daily_crypto body since untl =
        .ok (filterSortByDate (es.filterMap fun p => parseCryptoEntry p.1 p.2) since untl)) ∧
    filterSortByDate exWindowRows (some "2022-01-05") (some "2022-01-07") =
      [mkDay "2022-01-05", mkDay "2022-01-06", mkDay "2022-01-07"] := by
  refine ⟨?_, ?_, by decide⟩
  · intro rows since untl
    refine ⟨List.perm_insertionSort _ _, sortByDate_sorted _, ?_⟩
    intro c
    simp only [filterSortByDate, sortByDate]
    rw [(List.perm_insertionSort _ _).mem_iff, List.mem_filter, inRange_iff]
  · intro body since untl es hem hn hi hs
    exact ⟨fetch_daily_equity_ok hem hn hi hs since untl,
      fetch_daily_crypto_ok hem hn hi hs since untl⟩

/-- C9 (witness): the fetch-level clause on a concrete clean body and
window. -/
theorem C9_window_filter_sort_witness :
    fetch_daily_equity bodyCryptoMix (some "2022-01-04") (some "2022-01-09") =
      .ok (filterSortByDate
        ([("2022-01-03", entryCryptoFull), ("2022-01-04", entryCryptoNoHigh)].map
          fun p => parseEquityEntry p.1 p.2) (some "2022-01-04") (some "2022-01-09")) ∧
    fetch_daily_crypto bodyCryptoMix (some "2022-01-04") (some "2022-01-09") =
      .ok (filterSortByDate
        ([("2022-01-03", entryCryptoFull), ("2022-01-04", entryCryptoNoHigh)].filterMap
          fun p => parseCryptoEntry p.1 p.2) (some "2022-01-04") (some "2022-01-09")) :=
  C9_window_filter_sort.2.1 bodyCryptoMix (some "2022-01-04") (some "2022-01-09")
    [("2022-01-03", entryCryptoFull), ("2022-01-04", entryCryptoNoHigh)] rfl rfl rfl rfl

/-! ## Claim C3: the daily-mode upsert counter of `ingest_alpha_vantage`
(ingested_multiple_symbols.py, lines 200–247 of the spec's numbering; the
daily branch after the fetch)

The store is abstracted as a predicate `upsertOk` saying whether the batch
upsert call succeeds (the claims only concern the returned counter, not the
stored data); environment lookup and instrument creation are pre-steps of a
run that completes without a fatal error and are not modelled. -/

/-- A row of the `ohlcv_data` upsert payload: carries `instrument_id`, the
display `instrument_symbol`, the candle fields, and `volume` defaulted to 0
when null (`c.volume or 0`). -/
structure OhlcvRow where
  instrument_id : Nat
  instrument_symbol : String
  date : String
  open_ : ℚ
  high : ℚ
  low : ℚ
  close : ℚ
  volume : Int
deriving DecidableEq, Repr

def rowOfCandle (iid : Nat) (sym : String) (c : CandleDaily) : OhlcvRow :=
  { instrument_id := iid, instrument_symbol := sym, date := c.date,
    open_ := c.open_, high := c.high, low := c.low, close := c.close,
    volume := c.volume.getD 0 }

/-- Structural helper for `batchesOf`, with the list length as fuel. -/
def batchesOfGo (bs : Nat) : Nat → List α → List (List α)
  | 0, _ => []
  | _, [] => []
  | fuel + 1, x :: xs => ((x :: xs).take bs) :: batchesOfGo bs fuel ((x :: xs).drop bs)

/-- `for i in range(0, len(candles), batch_size)` with `batch = candles[i:i+batch_size]`:
the consecutive chunks of size `bs`.  (`batch_size = 0` raises `ValueError`
in Python and is outside every claim's scope.) -/
def batchesOf (bs : Nat) (l : List α) : List (List α) :=
  batchesOfGo bs l.length l

/-- The batch loop of the daily branch, folded over the batches.  For each
batch: build `rows` from the candles with a non-empty date (`if not c.date:
continue`); skip empty `rows`; call the upsert and — as in the source, where
the `# upserts += 1` line on the success path is commented out — leave the
`upserts` counter unchanged whether the call succeeds or fails. -/
def ingest_daily_store_loop (candles : List CandleDaily) (batch_size : Nat)
    (iid : Nat) (sym : String) (upsertOk : List OhlcvRow → Bool) : Nat :=
  (batchesOf batch_size candles).foldl
    (fun upserts batch =>
      let rows := (batch.filter fun c => c.date != "").map (rowOfCandle iid sym)
      if rows.isEmpty then upserts
      else if upsertOk rows then upserts
      else upserts)
    0

/-- The result dict `{"ok": True, "upserts": upserts, "mode": "daily"}`. -/
structure IngestResult where
  ok : Bool
  upserts : Nat
  mode : String
deriving DecidableEq, Repr

def ingest_alpha_vantage_daily (candles : List CandleDaily) (batch_size : Nat)
    (iid : Nat) (sym : String) (upsertOk : List OhlcvRow → Bool) : IngestResult :=
  { ok := true,
    upserts := ingest_daily_store_loop candles batch_size iid sym upsertOk,
    mode := "daily" }

/-- Modelled from the spec: the count of successful upserts, i.e. the number
of (non-empty) batches successfully written to the store during the run —
the same loop with the counter incremented on the success path. -/
def successful_upsert_count (candles : List CandleDaily) (batch_size : Nat)
    (iid : Nat) (sym : String) (upsertOk : List OhlcvRow → Bool) : Nat :=
  (batchesOf batch_size candles).foldl
    (fun n batch =>
      let rows := (batch.filter fun c => c.date != "").map (rowOfCandle iid sym)
      if rows.isEmpty then n
      else if upsertOk rows then n + 1
      else n)
    0

theorem ingest_daily_store_loop_eq_zero (candles : List CandleDaily)
    (batch_size iid : Nat) (sym : String) (upsertOk : List OhlcvRow → Bool) :
    ingest_daily_store_loop candles batch_size iid sym upsertOk = 0 := by
  unfold ingest_daily_store_loop
  generalize batchesOf batch_size candles = bl
  have key : ∀ (bl : List (List CandleDaily)) (n : Nat),
      bl.foldl
        (fun upserts batch =>
          let rows := (batch.filter fun c => c.date != "").map (rowOfCandle iid sym)
          if rows.isEmpty then upserts
          else if upsertOk rows then upserts
          else upserts) n = n := by
    intro bl
    induction bl with
    | nil => intro n; rfl
    | cons b t ih =>
      intro n
      rw [List.foldl_cons, ih]
      simp only [ite_self]
  exact key bl 0

/-- C3: the `upserts` field of the daily-mode result is always `0`, even for
a run in which one batch of one candle is successfully written: the
`upserts += 1` on the success path is commented out in the source, so the
reported count never equals the count of successful upserts (which is `1`
here). -/
theorem C3_upsert_counter_dead :
    (ingest_alpha_vantage_daily [mkDay "2022-01-03"] 50 1 "AAPL"
      (fun _ => true)).upserts = 0 ∧
    successful_upsert_count [mkDay "2022-01-03"] 50 1 "AAPL" (fun _ => true) = 1 ∧
    (ingest_alpha_vantage_daily [mkDay "2022-01-03"] 50 1 "AAPL"
      (fun _ => true)).upserts ≠
      successful_upsert_count [mkDay "2022-01-03"] 50 1 "AAPL" (fun _ => true) ∧
    ∀ (candles : List CandleDaily) (batch_size iid : Nat) (sym : String)
      (upsertOk : List OhlcvRow → Bool),
      (ingest_alpha_vantage_daily candles batch_size iid sym upsertOk).upserts = 0 := by
  refine ⟨by decide, by decide, by decide, ?_⟩
  intro candles batch_size iid sym upsertOk
  exact ingest_daily_store_loop_eq_zero candles batch_size iid sym upsertOk
